import Mathlib

/-!
Verification of the blazectl bulk-transfer engine against its specification.

The Go sources are shallowly embedded: pure helpers become Lean functions,
channel-driven loops become functions over explicit event lists, machine
integers become Nat/Int, float64 and float32 arithmetic is modelled exactly
over the rationals, and Go maps become association lists with
insert-or-replace semantics.  Each embedded definition keeps the name of the
Go function or type it is taken from.
-/

namespace Blazectl

/-! ## Async status polling (fhir/client.go, PollAsyncStatus)

The polling loop starts with a wait of 100 ms.  After every 202 Accepted
response it executes: if the current wait is below 10 s it doubles it,
otherwise it leaves it unchanged.  The wait (in milliseconds) before the
(n+1)-st poll, given n consecutive 202 responses, is pollWait n. -/

/-- The first wait of PollAsyncStatus: 100 ms (wait := 100 * time.Millisecond). -/
def pollInitialWait : Nat := 100

/-- One backoff step of PollAsyncStatus after a 202 Accepted response:
if wait < 10*time.Second then wait *= 2, in milliseconds. -/
def pollStep (wait : Nat) : Nat := if wait < 10000 then wait * 2 else wait

/-- The wait (ms) before the poll that follows n consecutive 202 responses. -/
def pollWait : Nat → Nat
  | 0 => pollInitialWait
  | n + 1 => pollStep (pollWait n)

/-! ## Authentication (cmd/root.go clientAuth, fhir/client.go Do) -/

/-- The authentication strategies of the fhir package: BasicAuth and TokenAuth.
clientAuth returning nil is modelled by Option.none. -/
inductive Auth
  | basic (user password : String)
  | token (tok : String)
deriving DecidableEq

/-- cmd/root.go clientAuth: basic auth when both user and password flags are
non-empty, else bearer token auth when the token flag is non-empty, else nil. -/
def clientAuth (basicAuthUser basicAuthPassword bearerToken : String) : Option Auth :=
  if basicAuthUser ≠ "" ∧ basicAuthPassword ≠ "" then
    some (.basic basicAuthUser basicAuthPassword)
  else if bearerToken ≠ "" then
    some (.token bearerToken)
  else
    none

/-- The part of an outgoing HTTP request that authentication touches: the
Authorization header.  The request constructors never set it, so it starts
out none; setAuth fills it with the credential material of the strategy. -/
structure Request where
  authorizationHeader : Option Auth
deriving DecidableEq

/-- Auth.setAuth: BasicAuth calls req.SetBasicAuth, TokenAuth sets the
Authorization header to the bearer token; both attach an Authorization
header carrying the strategy's credentials. -/
def setAuth (a : Auth) (req : Request) : Request :=
  { req with authorizationHeader := some a }

/-- fhir/client.go (c *Client).Do: if c.auth != nil it applies
c.auth.setAuth(req) before dispatching the request. -/
def clientDo (auth : Option Auth) (req : Request) : Request :=
  match auth with
  | some a => setAuth a req
  | none => req

/-! ## Upload result aggregation (cmd/upload.go) -/

/-- cmd/upload.go bundleIdentifier: a bundle's filename, 1-based index within
the file, and half-open byte range. -/
structure BundleIdentifier where
  filename : String
  bundleNumber : Nat
  startBytes : Nat
  endBytes : Nat
deriving DecidableEq

/-- cmd/upload.go uploadInfo: outcome of one HTTP upload attempt.  Durations
(seconds, Go float64) are modelled over ℚ. -/
structure UploadInfo where
  statusCode : Nat
  bytesOut : Nat
  bytesIn : Nat
  requestDuration : ℚ
  processingDuration : ℚ
deriving DecidableEq

/-- cmd/upload.go bundleUploadResult: identifier plus uploadInfo, or a
transport error (err = true means the err field was non-nil). -/
structure BundleUploadResult where
  id : BundleIdentifier
  uploadInfo : UploadInfo
  err : Bool
deriving DecidableEq

/-- Insert-or-replace on an association list: the semantics of assignment to
a Go map key.  The map's size is the length of the list. -/
def mapInsert {κ ν : Type} [DecidableEq κ] (m : List (κ × ν)) (k : κ) (v : ν) :
    List (κ × ν) :=
  if m.any (fun p => p.1 = k) then
    m.map (fun p => if p.1 = k then (k, v) else p)
  else
    m ++ [(k, v)]

/-- Whether a key is present in an association-list map. -/
def mapHasKey {κ ν : Type} [DecidableEq κ] (m : List (κ × ν)) (k : κ) : Bool :=
  m.any (fun p => p.1 = k)

/-- cmd/upload.go aggregatedUploadResults.  errorResponses maps a bundle
identifier to the non-200 status code of its response (the decoded
OperationOutcome is not needed here); errors maps a bundle identifier to its
transport error. -/
structure AggregatedUploadResults where
  totalProcessedBundles : Nat
  requestDurations : List ℚ
  processingDurations : List ℚ
  totalBytesIn : Nat
  totalBytesOut : Nat
  errorResponses : List (BundleIdentifier × Nat)
  errors : List (BundleIdentifier × Bool)
deriving DecidableEq

/-- The zero-valued accumulator the aggregator starts from. -/
def emptyAggregatedUploadResults : AggregatedUploadResults :=
  ⟨0, [], [], 0, 0, [], []⟩

/-- One iteration of the consume loop of cmd/upload.go aggregateUploadResults:
count the result, file transport errors into the errors map, 200 responses
into the processing-duration vector, other responses into the errorResponses
map, and accumulate bytes and request durations for non-transport results. -/
def aggregateStep (acc : AggregatedUploadResults) (r : BundleUploadResult) :
    AggregatedUploadResults :=
  let acc := { acc with totalProcessedBundles := acc.totalProcessedBundles + 1 }
  if r.err then
    { acc with errors := mapInsert acc.errors r.id true }
  else
    let acc :=
      if r.uploadInfo.statusCode = 200 then
        { acc with processingDurations :=
            acc.processingDurations ++ [r.uploadInfo.processingDuration] }
      else
        { acc with errorResponses :=
            mapInsert acc.errorResponses r.id r.uploadInfo.statusCode }
    { acc with
        totalBytesIn := acc.totalBytesIn + r.uploadInfo.bytesIn,
        totalBytesOut := acc.totalBytesOut + r.uploadInfo.bytesOut,
        requestDurations := acc.requestDurations ++ [r.uploadInfo.requestDuration] }

/-- cmd/upload.go aggregateUploadResults: fold the upload results, in arrival
order, into the aggregate that is published when the channel closes. -/
def aggregateUploadResults (results : List BundleUploadResult) :
    AggregatedUploadResults :=
  results.foldl aggregateStep emptyAggregatedUploadResults

/-- The exit behaviour of the upload command's Run function (cmd/upload.go):
os.Exit(1) fires only when reading the upload directory fails
(filterProcessableFiles returns an error); otherwise Run prints the summary
built from the aggregate and returns normally, so the process exits 0.
(uploadCmd uses Run, not RunE, hence Execute never sees an error from it.) -/
def uploadRun (dirReadFails : Bool) (results : List BundleUploadResult) :
    Nat × Option AggregatedUploadResults :=
  if dirReadFails then
    (1, none)
  else
    (0, some (aggregateUploadResults results))

/-! ## Measure-evaluation retry (cmd/evaluateMeasure.go) -/

/-- The FHIR OperationOutcome issue codes that cmd/evaluateMeasure.go
isTransient distinguishes: the six codes of its switch plus representative
codes that fall into its default branch. -/
inductive IssueType
  | transient
  | lockError
  | noStore
  | timeout
  | incomplete
  | throttled
  | invalid
  | security
  | processing
  | notFound
  | exception
  | informational
deriving DecidableEq

/-- One issue of an OperationOutcome; isTransient only inspects its code. -/
structure OperationOutcomeIssue where
  code : IssueType
deriving DecidableEq

/-- A FHIR OperationOutcome: a list of issues. -/
structure OperationOutcome where
  issue : List OperationOutcomeIssue
deriving DecidableEq

/-- cmd/evaluateMeasure.go isTransient: true exactly for the codes
transient, lock-error, no-store, timeout, incomplete and throttled. -/
def isTransient (issue : OperationOutcomeIssue) : Bool :=
  match issue.code with
  | .transient | .lockError | .noStore | .timeout | .incomplete | .throttled => true
  | _ => false

/-- The shape of errors.Unwrap applied to an error of evaluateMeasure: either
an operationOutcomeError carrying a decoded OperationOutcome, or any other
error (transport errors, non-FHIR bodies, and the async path's extra
wrapping layer, none of which implement the retryable interface). -/
inductive EvalError
  | outcomeError (outcome : OperationOutcome)
  | otherError
deriving DecidableEq

/-- (*operationOutcomeError).retryable: some issue of the outcome is
transient. -/
def retryable (outcome : OperationOutcome) : Bool :=
  outcome.issue.any isTransient

/-- cmd/evaluateMeasure.go isRetryable on the unwrapped error: only an
operationOutcomeError can be retryable, via its retryable method. -/
def isRetryable : Option EvalError → Bool
  | some (.outcomeError outcome) => retryable outcome
  | some .otherError => false
  | none => false

/-- Result of one evaluateMeasure call: a MeasureReport (abstracted to a
Nat) or an error. -/
inductive EvalOutcome
  | ok (report : Nat)
  | err (e : EvalError)
deriving DecidableEq

/-- cmd/evaluateMeasure.go evaluateMeasureWithRetry, with the outcome of the
k-th evaluateMeasure call supplied by evals k.  The loop

  for wait := 100 ms; wait < 5 s; wait *= 2

runs while wait < 5000 (ms): it evaluates, returns unless the unwrapped
error is retryable, and otherwise sleeps wait before doubling it.  When the
loop condition fails it returns (nil, lastErr).  Returned alongside the Go
result is the list of sleeps performed.  The gas argument only bounds the
recursion; starting from wait = 100 the condition fails after at most six
iterations, so the gas-exhausted branch (which returns the same value as the
loop-exit branch) is never taken for gas ≥ 6. -/
def evaluateMeasureWithRetryAux (evals : Nat → EvalOutcome) :
    Nat → Nat → Nat → Option EvalError → (Option Nat × Option EvalError) × List Nat
  | 0, _, _, last => ((none, last), [])
  | gas + 1, k, wait, last =>
    if wait < 5000 then
      match evals k with
      | .ok report => ((some report, none), [])
      | .err e =>
        if isRetryable (some e) then
          let r := evaluateMeasureWithRetryAux evals gas (k + 1) (wait * 2) (some e)
          (r.1, wait :: r.2)
        else
          ((none, some e), [])
    else
      ((none, last), [])

/-- evaluateMeasureWithRetry entry point: lastErr starts nil, wait at 100 ms. -/
def evaluateMeasureWithRetry (evals : Nat → EvalOutcome) :
    (Option Nat × Option EvalError) × List Nat :=
  evaluateMeasureWithRetryAux evals 13 0 100 none

/-- An evaluation that always fails with a timeout-coded OperationOutcome. -/
def alwaysTimeoutEval : Nat → EvalOutcome :=
  fun _ => .err (.outcomeError ⟨[⟨.timeout⟩]⟩)

/-! ## File chunk calculation (util/fileAnalyzer.go, CalculateFileChunks)

The io.Reader is modelled by its trace: the list of outcomes of the
successive Read calls.  A Read either delivers some bytes with a nil error
(chunk), or returns n = 0 with a non-EOF error (readError).  The end of the
trace models the Read call returning (0, io.EOF).  Bytes are Nat. -/

/-- util/fileAnalyzer.go FileChunk. -/
structure FileChunk where
  chunkNumber : Nat
  startBytes : Nat
  endBytes : Nat
deriving DecidableEq

/-- util/fileAnalyzer.go FileChunkCalculationResult; err = true when the
result carries a (non-EOF) read error. -/
structure FileChunkCalculationResult where
  fileChunk : FileChunk
  err : Bool
deriving DecidableEq

/-- One outcome of a Read call on the underlying reader. -/
inductive ReadEvent
  | chunk (bytes : List Nat)
  | readError
deriving DecidableEq

/-- The inner loop of CalculateFileChunks over one read buffer: for each
delimiter byte, at absolute offset pos, increment the chunk counter, emit
the chunk from the last-seen-delimiter offset to pos, and move the
last-seen offset past the delimiter.  Returns the emitted results together
with the final (lastSeenDelimiterTokenOffsetBytes, chunkNumber) state. -/
def scanBuffer (delimiter : Nat) :
    List Nat → Nat → Nat → Nat → List FileChunkCalculationResult × Nat × Nat
  | [], _, lastSeen, chunkNumber => ([], lastSeen, chunkNumber)
  | b :: bs, pos, lastSeen, chunkNumber =>
    if b = delimiter then
      let r := scanBuffer delimiter bs (pos + 1) (pos + 1) (chunkNumber + 1)
      (⟨⟨chunkNumber + 1, lastSeen, pos⟩, false⟩ :: r.1, r.2)
    else
      scanBuffer delimiter bs (pos + 1) lastSeen chunkNumber

/-- The outer read loop of CalculateFileChunks, carrying
lastSeenDelimiterTokenOffsetBytes, alreadyReadBytes and chunkNumber.  At end
of trace (EOF with n = 0) it emits the final chunk
[lastSeen, alreadyRead) if alreadyRead > lastSeen and closes the channel.
A read error emits a result holding only the current chunk number (the
zero-valued FileChunk fields of Go) and then, as in the source, the loop
continues with the rest of the trace. -/
def calculateFileChunksAux (delimiter : Nat) :
    List ReadEvent → Nat → Nat → Nat → List FileChunkCalculationResult
  | [], lastSeen, alreadyRead, chunkNumber =>
    if lastSeen < alreadyRead then
      [⟨⟨chunkNumber + 1, lastSeen, alreadyRead⟩, false⟩]
    else
      []
  | .chunk bs :: rest, lastSeen, alreadyRead, chunkNumber =>
    let r := scanBuffer delimiter bs alreadyRead lastSeen chunkNumber
    r.1 ++ calculateFileChunksAux delimiter rest r.2.1 (alreadyRead + bs.length) r.2.2
  | .readError :: rest, lastSeen, alreadyRead, chunkNumber =>
    ⟨⟨chunkNumber, 0, 0⟩, true⟩ ::
      calculateFileChunksAux delimiter rest lastSeen alreadyRead chunkNumber

/-- util/fileAnalyzer.go CalculateFileChunks: the full list of results
published on the res channel for a given reader trace. -/
def calculateFileChunks (delimiter : Nat) (trace : List ReadEvent) :
    List FileChunkCalculationResult :=
  calculateFileChunksAux delimiter trace 0 0 0

/-- The absolute offsets (counting from position pos) of the delimiter
occurrences in a byte list. -/
def delimiterPositions (delimiter : Nat) : List Nat → Nat → List Nat
  | [], _ => []
  | b :: bs, pos =>
    if b = delimiter then
      pos :: delimiterPositions delimiter bs (pos + 1)
    else
      delimiterPositions delimiter bs (pos + 1)

/-- Modelled from the spec's words on multi-bundle chunking: each chunk's
byte range runs from the offset just after the previous delimiter to the
offset of the current delimiter, and if the input does not end with the
delimiter a final chunk ends exactly at the total input size. -/
def specChunkRanges (delimiter : Nat) (data : List Nat) : List (Nat × Nat) :=
  (0 :: (delimiterPositions delimiter data 0).map (· + 1)).zip
      (delimiterPositions delimiter data 0) ++
    (if data ≠ [] ∧ data.getLast? ≠ some delimiter then
      [((0 :: (delimiterPositions delimiter data 0).map (· + 1)).getLastD 0,
        data.length)]
    else
      [])

/-! ## Bundle discovery (cmd/upload.go producers) -/

/-- cmd/upload.go bundle: a bundle identifier and an optional discovery
error. -/
structure DiscoveredBundle where
  id : BundleIdentifier
  err : Bool
deriving DecidableEq

/-- cmd/upload.go createUploadBundlesFromMultiBundleFiles, for one .ndjson
file: consume the chunk-calculation results; an errored result becomes a
bundle carrying the chunk number and the error, a zero-length chunk
(StartBytes == EndBytes) is skipped, and every other chunk becomes a bundle
with its byte range. -/
def createUploadBundlesFromMultiBundleFile (filename : String) (delimiter : Nat)
    (trace : List ReadEvent) : List DiscoveredBundle :=
  (calculateFileChunks delimiter trace).filterMap fun res =>
    if res.err then
      some ⟨⟨filename, res.fileChunk.chunkNumber, 0, 0⟩, true⟩
    else if res.fileChunk.startBytes = res.fileChunk.endBytes then
      none
    else
      some ⟨⟨filename, res.fileChunk.chunkNumber, res.fileChunk.startBytes,
        res.fileChunk.endBytes⟩, false⟩

/-- cmd/upload.go createUploadBundlesFromSingleBundleFiles, for one .json
file that opens and stats successfully: one bundle with index 1 covering
[0, size). -/
def createUploadBundleFromSingleBundleFile (filename : String) (fileSize : Nat) :
    DiscoveredBundle :=
  ⟨⟨filename, 1, 0, fileSize⟩, false⟩

/-! ## Duration statistics (util/stats.go, CalculateDurationStatistics)

Durations are seconds as Go float64, modelled over ℚ.  A time.Duration is a
count of nanoseconds (int64), modelled as ℤ.  The conversion
time.Duration(x*1000) * time.Millisecond truncates x*1000 toward zero and
scales to nanoseconds.  The float32 index arithmetic
int(float32(n)*0.95) and int(float32(n)*0.99) is modelled exactly as
n*95/100 and n*99/100 in ℕ. -/

/-- Truncation of a rational toward zero, the semantics of Go's float-to-int
conversion. -/
def ratTrunc (x : ℚ) : ℤ :=
  if 0 ≤ x then ⌊x⌋ else ⌈x⌉

/-- time.Duration(x*1000) * time.Millisecond for x in seconds: nanoseconds. -/
def toDuration (seconds : ℚ) : ℤ :=
  ratTrunc (seconds * 1000) * 1000000

/-- util/stats.go DurationStatistics (nanosecond counts). -/
structure DurationStatistics where
  mean : ℤ
  q50 : ℤ
  q95 : ℤ
  q99 : ℤ
  max : ℤ
deriving DecidableEq

/-- util/stats.go CalculateDurationStatistics: all-zero for an empty vector;
otherwise sort ascending and take the mean and the nearest-rank elements at
indices n/2, n*95/100, n*99/100 and n-1. -/
def calculateDurationStatistics (durations : List ℚ) : DurationStatistics :=
  if durations = [] then
    ⟨0, 0, 0, 0, 0⟩
  else
    let sorted := durations.insertionSort (· ≤ ·)
    let n := durations.length
    { mean := toDuration (durations.sum / (n : ℚ)),
      q50 := toDuration (sorted.getD (n / 2) 0),
      q95 := toDuration (sorted.getD (n * 95 / 100) 0),
      q99 := toDuration (sorted.getD (n * 99 / 100) 0),
      max := toDuration (sorted.getD (n - 1) 0) }

/-! ## Resource counting (cmd/countResources.go)

Resource types are represented by their code strings (fm.ResourceType
Code()); a batched response entry carries its response status (none when
entry.Response is nil) and, when entry.Resource parses as a bundle, that
bundle's optional Total. -/

/-- One entry of the batched count response. -/
structure BatchResponseEntry where
  responseStatus : Option String
  resource : Option (Option Nat)
deriving DecidableEq

/-- The literal status prefix checked by extractTotalCounts. -/
def statusPrefix200 : List Char := ['2', '0', '0']

/-- cmd/countResources.go extractTotalCounts: walk the response entries in
order, failing on a missing response, a status that does not start with 200,
or a missing resource; entries whose search-set bundle has no total are
skipped, the others record their resource type's count. -/
def extractTotalCounts :
    List BatchResponseEntry → List String → Option (List (String × Nat))
  | [], _ => some []
  | _ :: _, [] => none
  | e :: es, t :: ts =>
    match e.responseStatus with
    | none => none
    | some st =>
      if statusPrefix200.isPrefixOf st.toList then
        match e.resource with
        | none => none
        | some total =>
          match extractTotalCounts es ts with
          | none => none
          | some m =>
            match total with
            | none => some m
            | some v => some ((t, v) :: m)
      else
        none

/-- Go map read with zero value for a missing key: counts[resourceType]. -/
def lookupCount (counts : List (String × Nat)) (t : String) : Nat :=
  match counts.find? (fun p => p.1 = t) with
  | some p => p.2
  | none => 0

/-- The render loop of countResourcesCmd: iterate over resourceTypes (the
capability-statement order) and print a line for every type whose count is
non-zero.  (The sorted resourceTypeCodes list the command also builds is
never used by this loop.) -/
def renderCountLines (resourceTypes : List String) (counts : List (String × Nat)) :
    List (String × Nat) :=
  (resourceTypes.filter (fun t => lookupCount counts t ≠ 0)).map
    (fun t => (t, lookupCount counts t))

/-- The total of the sum row: cmd/countResources.go max sums all counts. -/
def totalCount (counts : List (String × Nat)) : Nat :=
  (counts.map (fun p => p.2)).sum

/-- The count-resources reply handling after the batch POST succeeds: the
entry-count assertion of fetchResourcesTotal, extractTotalCounts, then the
rendered per-type lines and the sum row value. -/
def countResourcesRender (resourceTypes : List String)
    (entries : List BatchResponseEntry) : Option (List (String × Nat) × Nat) :=
  if entries.length = resourceTypes.length then
    match extractTotalCounts entries resourceTypes with
    | none => none
    | some counts => some (renderCountLines resourceTypes counts, totalCount counts)
  else
    none

/-- Empty status maps and sample data used by concrete theorems below. -/
def zeroUploadInfo : UploadInfo := ⟨0, 0, 0, 0, 0⟩

/-- A transport-error upload result for a first ndjson bundle. -/
def failedUploadResult : BundleUploadResult :=
  ⟨⟨"bundles.ndjson", 1, 0, 0⟩, zeroUploadInfo, true⟩

/-- A sample user flag value. -/
def sampleUser : String := "alice"

/-- A sample bearer token flag value. -/
def sampleToken : String := "secret-token"

/-- An unset string flag. -/
def emptyFlag : String := ""

/-- The Patient resource type code. -/
def c9Patient : String := "Patient"

/-- The Observation resource type code. -/
def c9Observation : String := "Observation"

/-- A capability statement listing Patient before Observation. -/
def c9ResourceTypes : List String := [c9Patient, c9Observation]

/-- A 200 OK entry status. -/
def statusOk : String := "200 OK"

/-- Batched count-response entries: search-set totals 10 and 3. -/
def c9Entries : List BatchResponseEntry :=
  [⟨some statusOk, some (some 10)⟩, ⟨some statusOk, some (some 3)⟩]

/-- Lexicographic order on character lists, by code point: the order in
which sort.Strings sorts resource type names ascending. -/
def charListLe : List Char → List Char → Bool
  | [], _ => true
  | _ :: _, [] => false
  | a :: as, b :: bs =>
    if a.val < b.val then true
    else if b.val < a.val then false
    else charListLe as bs

/-- Ascending order on resource type names. -/
def nameLe (s t : String) : Bool :=
  charListLe s.toList t.toList

/-- Three upload results with distinct identifiers: a 200 success, a 404
response and a transport error. -/
def c7WitnessResults : List BundleUploadResult :=
  [⟨⟨"a.json", 1, 0, 5⟩, ⟨200, 5, 7, 1, 1⟩, false⟩,
   ⟨⟨"b.json", 1, 0, 9⟩, ⟨404, 9, 3, 1, 1⟩, false⟩,
   ⟨⟨"c.ndjson", 2, 3, 9⟩, zeroUploadInfo, true⟩]

/-- The name of an empty single-bundle file. -/
def emptyJsonFile : String := "empty.json"

/-- A sample duration vector in seconds. -/
def c8SampleDurations : List ℚ := [3, 1, 2]

/-! ## Theorems -/

/-- Claim C2, counterexample: after seven consecutive 202 responses the wait
reaches 12.8 s, exceeding the 10 s bound the claim states for every later
poll. -/
theorem pollWait_exceeds_ten_seconds : 10000 < pollWait 7 := by decide

/-- Claim C2 (amended): the wait before the first poll is 100 ms and the wait
doubles after every 202 Accepted response while it is still below 10 s,
staying constant once it reaches 12.8 s; hence every wait equals
min (100·2^n) 12800 and never exceeds 12.8 s (not 10 s). -/
theorem pollWait_backoff_capped (n : Nat) :
    pollWait n = min (100 * 2 ^ n) 12800 ∧ pollWait n ≤ 12800 := by
  have h : pollWait n = min (100 * 2 ^ n) 12800 := by
    induction n with
    | zero => decide
    | succ n ih =>
      rw [pollWait, ih]
      rcases le_or_lt n 6 with hn | hn
      · have h2 : 2 ^ n ≤ 64 := by
          calc 2 ^ n ≤ 2 ^ 6 := Nat.pow_le_pow_right (by norm_num) hn
            _ = 64 := by norm_num
        have h3 : 100 * 2 ^ (n + 1) ≤ 12800 := by
          rw [pow_succ]; omega
        rw [min_eq_left (by omega), pollStep, if_pos (by omega),
          min_eq_left h3, pow_succ]
        ring
      · have h2 : 128 ≤ 2 ^ n := by
          calc (128 : Nat) = 2 ^ 7 := by norm_num
            _ ≤ 2 ^ n := Nat.pow_le_pow_right (by norm_num) hn
        have h3 : 12800 ≤ 100 * 2 ^ (n + 1) := by
          rw [pow_succ]; omega
        rw [min_eq_right (by omega), pollStep, if_neg (by omega),
          min_eq_right h3]
  exact ⟨h, by rw [h]; omega⟩

/-- Claim C1, counterexample: a run whose directory listing succeeds and
whose single bundle fails with a transport error records a failure in the
aggregate, yet the command's exit code is 0. -/
theorem uploadRun_exit_zero_despite_failure :
    (uploadRun false [failedUploadResult]).1 = 0 ∧
      0 < (aggregateUploadResults [failedUploadResult]).errors.length := by
  decide

/-- Claim C1 (amended): the upload command exits 1 exactly when reading the
upload directory fails; after a completed upload run it always exits 0, no
matter which failures were recorded in the aggregate. -/
theorem uploadRun_exit_code (results : List BundleUploadResult) :
    (uploadRun false results).1 = 0 ∧ (uploadRun true results).1 = 1 := by
  simp [uploadRun]

/-- Claim C10, counterexample: with a non-empty user, an empty password and a
non-empty bearer token, the request is sent with an Authorization header
(the bearer strategy), contradicting the claim that such invocations send
no Authorization header at all. -/
theorem clientAuth_token_header_with_empty_password :
    (clientDo (clientAuth sampleUser emptyFlag sampleToken) ⟨none⟩).authorizationHeader
      ≠ none := by
  decide

/-- Claim C10 (amended): an Authorization header is attached iff an
authentication strategy is configured; basic authentication is configured
only when both user and password are non-empty; and an invocation with a
non-empty user, an empty password and no bearer token sends no Authorization
header at all. -/
theorem clientDo_auth_header (u p t : String) (req : Request)
    (h : req.authorizationHeader = none) :
    ((clientDo (clientAuth u p t) req).authorizationHeader ≠ none ↔
        (clientAuth u p t).isSome = true) ∧
    (∀ a b, clientAuth u p t = some (.basic a b) → u ≠ "" ∧ p ≠ "") ∧
    (u ≠ "" → p = "" → t = "" →
      (clientDo (clientAuth u p t) req).authorizationHeader = none) := by
  refine ⟨?_, ?_, ?_⟩
  · cases hca : clientAuth u p t with
    | none => simp [clientDo, hca, h]
    | some a => simp [clientDo, hca, setAuth]
  · intro a b hab
    unfold clientAuth at hab
    split_ifs at hab with h1 h2
    · exact h1
    all_goals simp at hab
  · intro _ hp ht
    have hca : clientAuth u p t = none := by
      have h1 : ¬(u ≠ "" ∧ p ≠ "") := by simp [hp]
      have h2 : ¬(t ≠ "") := by simp [ht]
      unfold clientAuth
      rw [if_neg h1, if_neg h2]
    simp [clientDo, hca, h]

/-- Claim C10 amended, witness: user alice, empty password, no token, on a
fresh request. -/
theorem clientDo_auth_header_witness :
    ((clientDo (clientAuth sampleUser emptyFlag emptyFlag) ⟨none⟩).authorizationHeader
        ≠ none ↔ (clientAuth sampleUser emptyFlag emptyFlag).isSome = true) ∧
    (∀ a b, clientAuth sampleUser emptyFlag emptyFlag = some (.basic a b) →
      sampleUser ≠ "" ∧ emptyFlag ≠ "") ∧
    (sampleUser ≠ "" → emptyFlag = "" → emptyFlag = "" →
      (clientDo (clientAuth sampleUser emptyFlag emptyFlag) ⟨none⟩).authorizationHeader
        = none) :=
  clientDo_auth_header sampleUser emptyFlag emptyFlag ⟨none⟩ rfl

/-- Claim C4: the code evaluated at a failing reader trace.  After one
delivered byte the reader fails (non-EOF); the source emits the error-carrying
result and then keeps consuming the reader instead of terminating the
stream, so at EOF a further (final-chunk) result follows the error result. -/
theorem calculateFileChunks_continues_after_read_error :
    calculateFileChunks 10 [.chunk [97], .readError] =
      [⟨⟨0, 0, 0⟩, true⟩, ⟨⟨1, 0, 1⟩, false⟩] := by
  decide

/-- Claim C9: the code evaluated at the failing input.  With the capability
statement listing Patient before Observation and both counts non-zero, the
lines are rendered in capability order — Patient before Observation — and
are therefore not sorted by type name, though the sum row is correct. -/
theorem countResourcesRender_not_sorted :
    countResourcesRender c9ResourceTypes c9Entries =
      some ([(c9Patient, 10), (c9Observation, 3)], 13) ∧
    ¬ (((countResourcesRender c9ResourceTypes c9Entries).getD ([], 0)).1.map
        Prod.fst).Pairwise (fun s t => nameLe s t = true) := by
  decide

/-- Claim C3, counterexample: when every evaluation fails with a
timeout-coded outcome, the retry loop sleeps 100, 200, 400, 800, 1600 and
3200 ms — a total of 6.3 s, which does not stay below 5 seconds. -/
theorem evaluateMeasureWithRetry_sleeps_total :
    (evaluateMeasureWithRetry alwaysTimeoutEval).2 = [100, 200, 400, 800, 1600, 3200] ∧
      ¬ (evaluateMeasureWithRetry alwaysTimeoutEval).2.sum < 5000 := by
  decide

/-- The retry loop's sleep list, for any wait of the form 100·2^k, is an
initial run of the doubling sequence whose every slept step came from a
retryable outcome. -/
theorem evaluateMeasureWithRetryAux_waits (evals : Nat → EvalOutcome) :
    ∀ (gas k : Nat) (last : Option EvalError),
      ∃ m, (k + m ≤ 6 ∨ m = 0) ∧
        (evaluateMeasureWithRetryAux evals gas k (100 * 2 ^ k) last).2 =
          (List.range' k m).map (fun j => 100 * 2 ^ j) ∧
        ∀ j, k ≤ j → j < k + m →
          ∃ oc, evals j = .err (.outcomeError oc) ∧ retryable oc = true := by
  intro gas
  induction gas with
  | zero =>
    intro k last
    exact ⟨0, Or.inr rfl, rfl, fun j h1 h2 => absurd h2 (by omega)⟩
  | succ gas ih =>
    intro k last
    by_cases hw : 100 * 2 ^ k < 5000
    · cases hev : evals k with
      | ok report =>
        refine ⟨0, Or.inr rfl, ?_, fun j h1 h2 => absurd h2 (by omega)⟩
        simp [evaluateMeasureWithRetryAux, hw, hev]
      | err e =>
        by_cases hr : isRetryable (some e) = true
        · cases e with
          | otherError => simp [isRetryable] at hr
          | outcomeError oc =>
            have hoc : retryable oc = true := by
              simpa [isRetryable] using hr
            have hk5 : k ≤ 5 := by
              by_contra hk
              have h6 : 2 ^ 6 ≤ 2 ^ k := Nat.pow_le_pow_right (by norm_num) (by omega)
              have : (64 : Nat) ≤ 2 ^ k := by simpa using h6
              omega
            obtain ⟨m', hm', hs', hretry'⟩ := ih (k + 1) (some (.outcomeError oc))
            have hws : 100 * 2 ^ k * 2 = 100 * 2 ^ (k + 1) := by
              rw [pow_succ]; ring
            refine ⟨m' + 1, ?_, ?_, ?_⟩
            · left
              rcases hm' with hle | hz
              · omega
              · omega
            · simp only [evaluateMeasureWithRetryAux, if_pos hw, hev, if_pos hr]
              rw [hws, hs', List.range'_succ]
              simp
            · intro j h1 h2
              rcases Nat.eq_or_lt_of_le h1 with rfl | hlt
              · exact ⟨oc, hev, hoc⟩
              · exact hretry' j hlt (by omega)
        · refine ⟨0, Or.inr rfl, ?_, fun j h1 h2 => absurd h2 (by omega)⟩
          simp [evaluateMeasureWithRetryAux, hw, hev, hr]
    · refine ⟨0, Or.inr rfl, ?_, fun j h1 h2 => absurd h2 (by omega)⟩
      simp [evaluateMeasureWithRetryAux, hw]

/-- The total of the first m doubling sleeps starting at 100 ms. -/
theorem sum_doubling_sleeps (m : Nat) :
    ((List.range m).map (fun j => 100 * 2 ^ j)).sum = 100 * (2 ^ m - 1) := by
  induction m with
  | zero => simp
  | succ m ih =>
    rw [List.range_succ, List.map_append, List.sum_append, ih, pow_succ]
    have h1 : 1 ≤ 2 ^ m := Nat.one_le_two_pow
    simp
    omega

/-- Claim C3 (amended): a retry happens only after an evaluation whose
(unwrapped) error is an OperationOutcome with a transient-class issue code
(transient, lock-error, no-store, timeout, incomplete or throttled); the
waits start at 100 ms and double each time; each individual wait stays below
5 s, and the total slept over one evaluation is at most 6.3 s (100 + … +
3200 ms), not below 5 s. -/
theorem evaluateMeasureWithRetry_backoff (evals : Nat → EvalOutcome) :
    ∃ m, m ≤ 6 ∧
      (evaluateMeasureWithRetry evals).2 = (List.range m).map (fun j => 100 * 2 ^ j) ∧
      (∀ j, j < m → ∃ oc, evals j = .err (.outcomeError oc) ∧ retryable oc = true) ∧
      (∀ w ∈ (evaluateMeasureWithRetry evals).2, w < 5000) ∧
      (evaluateMeasureWithRetry evals).2.sum ≤ 6300 := by
  obtain ⟨m, hm, hs, hretry⟩ := evaluateMeasureWithRetryAux_waits evals 13 0 none
  have hm6 : m ≤ 6 := by rcases hm with h | h <;> omega
  have hs0 : (evaluateMeasureWithRetry evals).2 =
      (List.range m).map (fun j => 100 * 2 ^ j) := by
    rw [List.range_eq_range']
    exact hs
  refine ⟨m, hm6, hs0, ?_, ?_, ?_⟩
  · intro j hj
    exact hretry j (by omega) (by omega)
  · intro w hw
    rw [hs0] at hw
    simp only [List.mem_map, List.mem_range] at hw
    obtain ⟨j, hj, rfl⟩ := hw
    have hj5 : j ≤ 5 := by omega
    have h2 : 2 ^ j ≤ 2 ^ 5 := Nat.pow_le_pow_right (by norm_num) hj5
    have : (2 : Nat) ^ 5 = 32 := by norm_num
    omega
  · rw [hs0, sum_doubling_sleeps]
    have h2 : 2 ^ m ≤ 2 ^ 6 := Nat.pow_le_pow_right (by norm_num) hm6
    have : (2 : Nat) ^ 6 = 64 := by norm_num
    omega

/-- Inserting under a fresh key grows the map by one entry. -/
theorem mapInsert_length_of_fresh {κ ν : Type} [DecidableEq κ]
    (m : List (κ × ν)) (k : κ) (v : ν) (h : mapHasKey m k = false) :
    (mapInsert m k v).length = m.length + 1 := by
  unfold mapHasKey at h
  unfold mapInsert
  rw [if_neg (by simp [h])]
  simp

/-- Inserting under one key leaves any other key's absence intact. -/
theorem mapHasKey_insert_of_ne {κ ν : Type} [DecidableEq κ]
    (m : List (κ × ν)) (k k' : κ) (v : ν) (hne : k' ≠ k)
    (h : mapHasKey m k' = false) : mapHasKey (mapInsert m k v) k' = false := by
  unfold mapHasKey at h ⊢
  unfold mapInsert
  have h' : ∀ p ∈ m, p.1 ≠ k' := by
    intro p hp hpk
    rw [List.any_eq_false] at h
    exact h p hp (by simp [hpk])
  by_cases hk : m.any (fun p => (p.1 = k : Bool)) = true
  · rw [if_pos hk]
    rw [List.any_eq_false]
    intro p hp
    simp only [List.mem_map] at hp
    obtain ⟨q, hq, rfl⟩ := hp
    by_cases hqk : q.1 = k
    · simp [hqk, Ne.symm hne]
    · simp [hqk, h' q hq]
  · rw [if_neg hk]
    rw [List.any_eq_false]
    intro p hp
    rcases List.mem_append.mp hp with hp | hp
    · simp [h' p hp]
    · simp only [List.mem_singleton] at hp
      subst hp
      simp [Ne.symm hne]

/-- The aggregator's step always counts the result. -/
theorem aggregateStep_total (acc : AggregatedUploadResults) (r : BundleUploadResult) :
    (aggregateStep acc r).totalProcessedBundles = acc.totalProcessedBundles + 1 := by
  simp only [aggregateStep]
  split_ifs <;> rfl

/-- The aggregator's step touches the transport-error map only for transport
errors. -/
theorem aggregateStep_errors (acc : AggregatedUploadResults) (r : BundleUploadResult) :
    (aggregateStep acc r).errors =
      if r.err then mapInsert acc.errors r.id true else acc.errors := by
  simp only [aggregateStep]
  split_ifs <;> rfl

/-- The aggregator's step touches the error-response map only for non-200
responses without a transport error. -/
theorem aggregateStep_errorResponses (acc : AggregatedUploadResults)
    (r : BundleUploadResult) :
    (aggregateStep acc r).errorResponses =
      if r.err then acc.errorResponses
      else if r.uploadInfo.statusCode = 200 then acc.errorResponses
      else mapInsert acc.errorResponses r.id r.uploadInfo.statusCode := by
  simp only [aggregateStep]
  split_ifs <;> rfl

/-- Folding results with pairwise-distinct identifiers over the aggregator
adds one to the total per result, one transport-error entry per errored
result, and one error-response entry per non-200 response. -/
theorem aggregate_foldl_counts (results : List BundleUploadResult) :
    ∀ acc : AggregatedUploadResults,
      (results.map (fun r => r.id)).Nodup →
      (∀ r ∈ results, mapHasKey acc.errorResponses r.id = false ∧
        mapHasKey acc.errors r.id = false) →
      (results.foldl aggregateStep acc).totalProcessedBundles
          = acc.totalProcessedBundles + results.length ∧
      (results.foldl aggregateStep acc).errors.length
          = acc.errors.length + (results.filter (fun r => r.err)).length ∧
      (results.foldl aggregateStep acc).errorResponses.length
          = acc.errorResponses.length
            + (results.filter
                (fun r => !r.err && !(r.uploadInfo.statusCode == 200))).length := by
  induction results with
  | nil => intro acc _ _; simp
  | cons r rs ih =>
    intro acc hnd hfresh
    obtain ⟨hfr1, hfr2⟩ := hfresh r (by simp)
    rw [List.map_cons, List.nodup_cons] at hnd
    have hrid : ∀ r' ∈ rs, r'.id ≠ r.id := by
      intro r' hr' he
      exact hnd.1 (List.mem_map.mpr ⟨r', hr', he⟩)
    have hfresh' : ∀ r' ∈ rs,
        mapHasKey (aggregateStep acc r).errorResponses r'.id = false ∧
        mapHasKey (aggregateStep acc r).errors r'.id = false := by
      intro r' hr'
      obtain ⟨hf1, hf2⟩ := hfresh r' (by simp [hr'])
      constructor
      · rw [aggregateStep_errorResponses]
        split_ifs with h1 h2
        · exact hf1
        · exact hf1
        · exact mapHasKey_insert_of_ne _ _ _ _ (hrid r' hr') hf1
      · rw [aggregateStep_errors]
        split_ifs with h1
        · exact mapHasKey_insert_of_ne _ _ _ _ (hrid r' hr') hf2
        · exact hf2
    obtain ⟨ht, he, hresp⟩ := ih (aggregateStep acc r) hnd.2 hfresh'
    rw [List.foldl_cons] at *
    refine ⟨?_, ?_, ?_⟩
    · rw [ht, aggregateStep_total]
      simp
      omega
    · rw [he, aggregateStep_errors]
      cases hr : r.err
      · simp [List.filter_cons, hr]
      · rw [if_pos (by simp [hr]), mapInsert_length_of_fresh _ _ _ hfr2]
        simp [List.filter_cons, hr]
        omega
    · rw [hresp, aggregateStep_errorResponses]
      cases hr : r.err
      · by_cases hs : r.uploadInfo.statusCode = 200
        · rw [if_neg (by simp [hr]), if_pos hs]
          simp [List.filter_cons, hr, hs]
        · rw [if_neg (by simp [hr]), if_neg hs,
            mapInsert_length_of_fresh _ _ _ hfr1]
          simp [List.filter_cons, hr, hs]
          omega
      · rw [if_pos (by simp [hr])]
        simp [List.filter_cons, hr]

/-- Successes, non-200 responses and transport errors partition the result
list. -/
theorem uploadResults_partition_length (results : List BundleUploadResult) :
    results.length =
      (results.filter (fun r => !r.err && r.uploadInfo.statusCode == 200)).length
      + (results.filter (fun r => !r.err && !(r.uploadInfo.statusCode == 200))).length
      + (results.filter (fun r => r.err)).length := by
  induction results with
  | nil => simp
  | cons r rs ih =>
    cases hr : r.err
    · by_cases hs : r.uploadInfo.statusCode = 200 <;>
        simp [List.filter_cons, hr, hs] <;> omega
    · simp [List.filter_cons, hr]
      omega

/-- Claim C7, counterexample: two results carrying the same bundle
identifier (both transport errors) are both counted in
totalProcessedBundles, but the Go map keyed by identifier collapses them
into one entry, so the claimed equation fails. -/
theorem aggregate_duplicate_id_breaks_partition :
    (aggregateUploadResults [failedUploadResult, failedUploadResult]).totalProcessedBundles = 2 ∧
    ([failedUploadResult, failedUploadResult].filter
        (fun r => !r.err && r.uploadInfo.statusCode == 200)).length
      + (aggregateUploadResults [failedUploadResult, failedUploadResult]).errorResponses.length
      + (aggregateUploadResults [failedUploadResult, failedUploadResult]).errors.length = 1 := by
  decide

/-- Claim C7 (amended): for every finite sequence of upload results whose
bundle identifiers are pairwise distinct (as when each discovered bundle
yields exactly one result), the published aggregate satisfies
totalProcessedBundles = number of status-200 successes + |errorResponses| +
|errors|, regardless of arrival order. -/
theorem aggregateUploadResults_partition (results : List BundleUploadResult)
    (h : (results.map (fun r => r.id)).Nodup) :
    (aggregateUploadResults results).totalProcessedBundles =
      (results.filter (fun r => !r.err && r.uploadInfo.statusCode == 200)).length
      + (aggregateUploadResults results).errorResponses.length
      + (aggregateUploadResults results).errors.length := by
  obtain ⟨ht, he, hresp⟩ :=
    aggregate_foldl_counts results emptyAggregatedUploadResults h
      (by intro r _; exact ⟨rfl, rfl⟩)
  unfold aggregateUploadResults
  rw [ht, he, hresp]
  simp only [emptyAggregatedUploadResults, List.length_nil]
  have := uploadResults_partition_length results
  omega

/-- Claim C7 amended, witness: one success, one 404 response, one transport
error, with three distinct identifiers. -/
theorem aggregateUploadResults_partition_witness :
    ((c7WitnessResults.map (fun r => r.id)).Nodup) ∧
    ((aggregateUploadResults c7WitnessResults).totalProcessedBundles =
      (c7WitnessResults.filter (fun r => !r.err && r.uploadInfo.statusCode == 200)).length
      + (aggregateUploadResults c7WitnessResults).errorResponses.length
      + (aggregateUploadResults c7WitnessResults).errors.length) :=
  ⟨by decide, aggregateUploadResults_partition c7WitnessResults (by decide)⟩

/-- Scanning a concatenation of two buffers equals scanning them in
sequence, threading the (lastSeen, chunkNumber) state and advancing the
absolute position by the first buffer's length. -/
theorem scanBuffer_append (delimiter : Nat) (bs1 bs2 : List Nat) :
    ∀ pos lastSeen chunkNumber,
      scanBuffer delimiter (bs1 ++ bs2) pos lastSeen chunkNumber =
        ((scanBuffer delimiter bs1 pos lastSeen chunkNumber).1 ++
            (scanBuffer delimiter bs2 (pos + bs1.length)
              (scanBuffer delimiter bs1 pos lastSeen chunkNumber).2.1
              (scanBuffer delimiter bs1 pos lastSeen chunkNumber).2.2).1,
          (scanBuffer delimiter bs2 (pos + bs1.length)
            (scanBuffer delimiter bs1 pos lastSeen chunkNumber).2.1
            (scanBuffer delimiter bs1 pos lastSeen chunkNumber).2.2).2) := by
  induction bs1 with
  | nil => intro pos ls cn; simp [scanBuffer]
  | cons b bs ih =>
    intro pos ls cn
    have harith : pos + (bs.length + 1) = pos + 1 + bs.length := by omega
    by_cases hb : b = delimiter
    · simp only [List.cons_append, scanBuffer, if_pos hb, List.length_cons, harith,
        List.append_eq]
      rw [ih (pos + 1) (pos + 1) (cn + 1)]
    · simp only [List.cons_append, scanBuffer, if_neg hb, List.length_cons, harith,
        List.append_eq]
      exact ih (pos + 1) ls cn

/-- The results emitted by one buffer scan are exactly the chunks from the
last-seen offset (resp. just past each delimiter) up to each delimiter
offset; the final state records the offset just past the last delimiter and
the number of delimiters seen. -/
theorem scanBuffer_spec (delimiter : Nat) (bs : List Nat) :
    ∀ pos lastSeen chunkNumber,
      ((scanBuffer delimiter bs pos lastSeen chunkNumber).1.map
          (fun r => (r.fileChunk.startBytes, r.fileChunk.endBytes))
        = (lastSeen :: (delimiterPositions delimiter bs pos).map (· + 1)).zip
            (delimiterPositions delimiter bs pos)) ∧
      (scanBuffer delimiter bs pos lastSeen chunkNumber).2.1
        = ((delimiterPositions delimiter bs pos).map (· + 1)).getLastD lastSeen ∧
      (scanBuffer delimiter bs pos lastSeen chunkNumber).2.2
        = chunkNumber + (delimiterPositions delimiter bs pos).length := by
  induction bs with
  | nil => intro pos ls cn; simp [scanBuffer, delimiterPositions]
  | cons b bs ih =>
    intro pos ls cn
    by_cases hb : b = delimiter
    · obtain ⟨h1, h2, h3⟩ := ih (pos + 1) (pos + 1) (cn + 1)
      refine ⟨?_, ?_, ?_⟩
      · simp only [scanBuffer, if_pos hb, delimiterPositions, List.map_cons,
          List.zip_cons_cons, h1]
      · simp only [scanBuffer, if_pos hb, delimiterPositions, List.map_cons,
          List.getLastD_cons, h2]
      · simp only [scanBuffer, if_pos hb, delimiterPositions, List.length_cons, h3]
        omega
    · obtain ⟨h1, h2, h3⟩ := ih (pos + 1) ls cn
      refine ⟨?_, ?_, ?_⟩
      · simp only [scanBuffer, if_neg hb, delimiterPositions, h1]
      · simp only [scanBuffer, if_neg hb, delimiterPositions, h2]
      · simp only [scanBuffer, if_neg hb, delimiterPositions, h3]

/-- On an error-free reader trace the chunk calculation behaves as one scan
of the concatenated bytes followed by the EOF final-chunk emission. -/
theorem calculateFileChunksAux_chunks (delimiter : Nat) (parts : List (List Nat)) :
    ∀ lastSeen alreadyRead chunkNumber,
      calculateFileChunksAux delimiter (parts.map .chunk) lastSeen alreadyRead
          chunkNumber =
        (scanBuffer delimiter parts.flatten alreadyRead lastSeen chunkNumber).1 ++
          (if (scanBuffer delimiter parts.flatten alreadyRead lastSeen chunkNumber).2.1
              < alreadyRead + parts.flatten.length then
            [⟨⟨(scanBuffer delimiter parts.flatten alreadyRead lastSeen
                  chunkNumber).2.2 + 1,
                (scanBuffer delimiter parts.flatten alreadyRead lastSeen
                  chunkNumber).2.1,
                alreadyRead + parts.flatten.length⟩, false⟩]
          else []) := by
  induction parts with
  | nil =>
    intro ls alr cn
    simp [calculateFileChunksAux, scanBuffer]
  | cons bs parts ih =>
    intro ls alr cn
    have harith : alr + bs.length + parts.flatten.length
        = alr + (bs.length + parts.flatten.length) := by omega
    simp only [List.map_cons, calculateFileChunksAux, ih, List.flatten_cons,
      scanBuffer_append, List.length_append, List.append_assoc, harith]

/-- Every delimiter offset lies within the scanned byte range. -/
theorem delimiterPositions_bounds (delimiter : Nat) (data : List Nat) :
    ∀ pos x, x ∈ delimiterPositions delimiter data pos →
      pos ≤ x ∧ x < pos + data.length := by
  induction data with
  | nil => intro pos x hx; simp [delimiterPositions] at hx
  | cons b bs ih =>
    intro pos x hx
    by_cases hb : b = delimiter
    · simp only [delimiterPositions, if_pos hb, List.mem_cons] at hx
      rcases hx with rfl | hx
      · simp
      · have := ih (pos + 1) x hx
        simp only [List.length_cons]
        omega
    · simp only [delimiterPositions, if_neg hb] at hx
      have := ih (pos + 1) x hx
      simp only [List.length_cons]
      omega

/-- Appending one byte appends its delimiter offset (if it is a delimiter). -/
theorem delimiterPositions_concat (delimiter : Nat) (data : List Nat) (b : Nat) :
    ∀ pos, delimiterPositions delimiter (data ++ [b]) pos =
      delimiterPositions delimiter data pos ++
        (if b = delimiter then [pos + data.length] else []) := by
  induction data with
  | nil =>
    intro pos
    by_cases hb : b = delimiter <;> simp [delimiterPositions, hb]
  | cons c cs ih =>
    intro pos
    have harith : pos + (cs.length + 1) = pos + 1 + cs.length := by omega
    by_cases hc : c = delimiter
    · simp only [List.cons_append, delimiterPositions, if_pos hc, List.length_cons,
        harith, List.append_eq]
      rw [ih (pos + 1)]
    · simp only [List.cons_append, delimiterPositions, if_neg hc, List.length_cons,
        harith, List.append_eq]
      exact ih (pos + 1)

/-- A getLastD over successors is bounded when every element (plus one) and
the default are. -/
theorem getLastD_map_succ_le (n : Nat) : ∀ (ps : List Nat) (d : Nat),
    (∀ x ∈ ps, x + 1 ≤ n) → d ≤ n → ((ps.map (· + 1)).getLastD d) ≤ n := by
  intro ps
  induction ps with
  | nil => intro d _ hd; simpa using hd
  | cons p ps ih =>
    intro d hx hd
    rw [List.map_cons, List.getLastD_cons]
    exact ih (p + 1) (fun x hxx => hx x (by simp [hxx])) (hx p (by simp))

/-- The offset just past the last delimiter never exceeds the data length. -/
theorem lastDelimiterOffset_le (delimiter : Nat) (data : List Nat) :
    ((delimiterPositions delimiter data 0).map (· + 1)).getLastD 0 ≤ data.length := by
  refine getLastD_map_succ_le data.length _ 0 ?_ (by omega)
  intro x hx
  have := delimiterPositions_bounds delimiter data 0 x hx
  omega

/-- The final chunk fires exactly when the data is non-empty and does not
end with the delimiter. -/
theorem finalChunk_condition (delimiter : Nat) (data : List Nat) :
    (((delimiterPositions delimiter data 0).map (· + 1)).getLastD 0 < data.length) ↔
      (data ≠ [] ∧ data.getLast? ≠ some delimiter) := by
  induction data using List.reverseRecOn with
  | nil => simp [delimiterPositions]
  | append_singleton data b ih =>
    rw [delimiterPositions_concat]
    by_cases hb : b = delimiter
    · subst hb
      rw [if_pos rfl, List.map_append]
      simp only [List.map_cons, List.map_nil, Nat.zero_add]
      rw [List.getLastD_concat]
      simp only [List.length_append, List.length_cons, List.length_nil,
        List.getLast?_concat, ne_eq]
      constructor
      · intro hlt
        exfalso
        omega
      · rintro ⟨-, hlast⟩
        simp at hlast
    · rw [if_neg hb, List.append_nil]
      simp only [List.length_append, List.length_cons, List.length_nil,
        List.getLast?_concat, ne_eq]
      constructor
      · intro _
        exact ⟨by simp, by simp [hb]⟩
      · intro _
        have hle := lastDelimiterOffset_le delimiter data
        omega

/-- Claim C5: over every delimiter-separated input (any error-free reader
trace), each emitted chunk's byte range is the half-open interval from the
offset just after the previous delimiter to the offset of the current
delimiter, and when the input does not end with the delimiter the final
emitted chunk ends exactly at the total input size. -/
theorem calculateFileChunks_ranges (delimiter : Nat) (parts : List (List Nat)) :
    (calculateFileChunks delimiter (parts.map .chunk)).map
        (fun r => (r.fileChunk.startBytes, r.fileChunk.endBytes))
      = specChunkRanges delimiter parts.flatten := by
  obtain ⟨h1, h2, h3⟩ := scanBuffer_spec delimiter parts.flatten 0 0 0
  rw [calculateFileChunks, calculateFileChunksAux_chunks, List.map_append, h1, h2,
    specChunkRanges]
  simp only [Nat.zero_add, List.getLastD_cons]
  congr 1
  by_cases hc : parts.flatten ≠ [] ∧ parts.flatten.getLast? ≠ some delimiter
  · rw [if_pos ((finalChunk_condition delimiter parts.flatten).mpr hc), if_pos hc]
    simp
  · rw [if_neg (fun hlt => hc ((finalChunk_condition delimiter parts.flatten).mp hlt)),
      if_neg hc]
    simp

/-- Every result of an error-free chunk calculation is error-free and has a
well-formed range bounded by the scanned length. -/
theorem scanBuffer_range_bounds (delimiter : Nat) (bs : List Nat) :
    ∀ pos lastSeen chunkNumber, lastSeen ≤ pos →
      (∀ r ∈ (scanBuffer delimiter bs pos lastSeen chunkNumber).1,
        r.err = false ∧ r.fileChunk.startBytes ≤ r.fileChunk.endBytes ∧
          r.fileChunk.endBytes < pos + bs.length) ∧
      (scanBuffer delimiter bs pos lastSeen chunkNumber).2.1 ≤ pos + bs.length := by
  induction bs with
  | nil =>
    intro pos ls cn hls
    refine ⟨?_, ?_⟩
    · intro r hr
      simp [scanBuffer] at hr
    · simp only [scanBuffer, List.length_nil]
      omega
  | cons b bs ih =>
    intro pos ls cn hls
    by_cases hb : b = delimiter
    · obtain ⟨hmem, hstate⟩ := ih (pos + 1) (pos + 1) (cn + 1) (le_refl _)
      refine ⟨?_, ?_⟩
      · intro r hr
        simp only [scanBuffer, if_pos hb, List.mem_cons] at hr
        rcases hr with rfl | hr
        · exact ⟨rfl, hls, by simp only [List.length_cons]; omega⟩
        · obtain ⟨he, hr1, hr2⟩ := hmem r hr
          exact ⟨he, hr1, by simp only [List.length_cons]; omega⟩
      · simp only [scanBuffer, if_pos hb, List.length_cons]
        omega
    · obtain ⟨hmem, hstate⟩ := ih (pos + 1) ls cn (by omega)
      refine ⟨?_, ?_⟩
      · intro r hr
        simp only [scanBuffer, if_neg hb] at hr
        obtain ⟨he, hr1, hr2⟩ := hmem r hr
        exact ⟨he, hr1, by simp only [List.length_cons]; omega⟩
      · simp only [scanBuffer, if_neg hb, List.length_cons]
        omega

/-- Every result of the chunk calculation on an error-free trace is
error-free, with start ≤ end ≤ total size. -/
theorem calculateFileChunks_result_bounds (delimiter : Nat) (parts : List (List Nat)) :
    ∀ r ∈ calculateFileChunks delimiter (parts.map .chunk),
      r.err = false ∧ r.fileChunk.startBytes ≤ r.fileChunk.endBytes ∧
        r.fileChunk.endBytes ≤ parts.flatten.length := by
  intro r hr
  rw [calculateFileChunks, calculateFileChunksAux_chunks] at hr
  obtain ⟨hmem, hstate⟩ :=
    scanBuffer_range_bounds delimiter parts.flatten 0 0 0 (le_refl 0)
  rcases List.mem_append.mp hr with hr | hr
  · obtain ⟨he, h1, h2⟩ := hmem r hr
    exact ⟨he, h1, by omega⟩
  · split at hr
    · rename_i hcond
      simp only [List.mem_singleton] at hr
      subst hr
      refine ⟨rfl, ?_, ?_⟩
      · simp only []
        omega
      · simp only []
        omega
    · simp at hr

/-- Claim C6, counterexample: for an empty single-bundle .json file the
producer emits an error-free bundle with range [0, 0): a zero-length range
reaches the shared bundle channel and is transmitted. -/
theorem singleBundleFile_zero_length_bundle :
    (createUploadBundleFromSingleBundleFile emptyJsonFile 0).err = false ∧
    ¬ ((createUploadBundleFromSingleBundleFile emptyJsonFile 0).id.startBytes <
        (createUploadBundleFromSingleBundleFile emptyJsonFile 0).id.endBytes) := by
  decide

/-- Claim C6 (amended): every error-free bundle emitted by the multi-bundle
producer satisfies 0 ≤ start < end ≤ filesize (zero-length chunk ranges are
dropped); the single-bundle producer always emits the range [0, filesize),
which is zero-length exactly when the file is empty. -/
theorem discoveredBundle_ranges (filename : String) (delimiter : Nat)
    (parts : List (List Nat)) (fileSize : Nat) :
    (∀ b ∈ createUploadBundlesFromMultiBundleFile filename delimiter
        (parts.map .chunk),
      b.err = false ∧ b.id.startBytes < b.id.endBytes ∧
        b.id.endBytes ≤ parts.flatten.length) ∧
    ((createUploadBundleFromSingleBundleFile filename fileSize).id.startBytes = 0 ∧
      (createUploadBundleFromSingleBundleFile filename fileSize).id.endBytes
        = fileSize) := by
  constructor
  · intro b hb
    rw [createUploadBundlesFromMultiBundleFile] at hb
    obtain ⟨res, hres, hfb⟩ := List.mem_filterMap.mp hb
    obtain ⟨he, h1, h2⟩ := calculateFileChunks_result_bounds delimiter parts res hres
    simp only [he, Bool.false_eq_true, if_false] at hfb
    by_cases hse : res.fileChunk.startBytes = res.fileChunk.endBytes
    · simp [hse] at hfb
    · simp only [hse, if_false, Option.some.injEq] at hfb
      subst hfb
      exact ⟨rfl, lt_of_le_of_ne h1 hse, h2⟩
  · exact ⟨rfl, rfl⟩

/-- Go's float-to-int truncation is monotone. -/
theorem ratTrunc_mono {x y : ℚ} (h : x ≤ y) : ratTrunc x ≤ ratTrunc y := by
  unfold ratTrunc
  by_cases hx : 0 ≤ x
  · rw [if_pos hx, if_pos (le_trans hx h)]
    exact Int.floor_le_floor h
  · rw [if_neg hx]
    by_cases hy : 0 ≤ y
    · rw [if_pos hy]
      have h1 : (⌈x⌉ : ℤ) ≤ 0 := by
        rw [Int.ceil_le]
        push_cast
        linarith [le_of_not_le hx]
      have h2 : (0 : ℤ) ≤ ⌊y⌋ := Int.floor_nonneg.mpr hy
      omega
    · rw [if_neg hy]
      exact Int.ceil_le_ceil h

/-- Conversion of seconds to a time.Duration is monotone. -/
theorem toDuration_mono {x y : ℚ} (h : x ≤ y) : toDuration x ≤ toDuration y := by
  unfold toDuration
  have h1 : x * 1000 ≤ y * 1000 := by linarith
  exact mul_le_mul_of_nonneg_right (ratTrunc_mono h1) (by norm_num)

/-- Unfolding of the statistics on a non-empty vector. -/
theorem calculateDurationStatistics_eq (durations : List ℚ) (h : durations ≠ []) :
    calculateDurationStatistics durations =
      { mean := toDuration (durations.sum / (durations.length : ℚ)),
        q50 := toDuration ((durations.insertionSort (· ≤ ·)).getD
          (durations.length / 2) 0),
        q95 := toDuration ((durations.insertionSort (· ≤ ·)).getD
          (durations.length * 95 / 100) 0),
        q99 := toDuration ((durations.insertionSort (· ≤ ·)).getD
          (durations.length * 99 / 100) 0),
        max := toDuration ((durations.insertionSort (· ≤ ·)).getD
          (durations.length - 1) 0) } := by
  unfold calculateDurationStatistics
  rw [if_neg h]

/-- Claim C8: for every non-empty duration vector the computed statistics
satisfy min ≤ Q50 ≤ Q95 ≤ Q99 ≤ Max, where min is (the duration of) the
smallest element of the vector and the quantile indices are nearest-rank
(floor of q·n, the float32 arithmetic modelled exactly). -/
theorem calculateDurationStatistics_ordered (durations : List ℚ)
    (h : durations ≠ []) :
    ((durations.insertionSort (· ≤ ·)).getD 0 0) ∈ durations ∧
    (∀ x ∈ durations, (durations.insertionSort (· ≤ ·)).getD 0 0 ≤ x) ∧
    toDuration ((durations.insertionSort (· ≤ ·)).getD 0 0)
        ≤ (calculateDurationStatistics durations).q50 ∧
    (calculateDurationStatistics durations).q50
        ≤ (calculateDurationStatistics durations).q95 ∧
    (calculateDurationStatistics durations).q95
        ≤ (calculateDurationStatistics durations).q99 ∧
    (calculateDurationStatistics durations).q99
        ≤ (calculateDurationStatistics durations).max := by
  have hperm := List.perm_insertionSort (· ≤ ·) durations
  have hsorted := List.sorted_insertionSort (· ≤ ·) durations
  have hlen : (durations.insertionSort (· ≤ ·)).length = durations.length :=
    hperm.length_eq
  have hn : 0 < durations.length := List.length_pos.mpr h
  have hget : ∀ i (hi : i < durations.length),
      (durations.insertionSort (· ≤ ·)).getD i 0 =
        (durations.insertionSort (· ≤ ·)).get ⟨i, by rw [hlen]; exact hi⟩ := by
    intro i hi
    rw [List.getD_eq_getElem _ _ (by rw [hlen]; exact hi)]
    simp
  have hmono : ∀ i j, i ≤ j → ∀ hj : j < durations.length,
      (durations.insertionSort (· ≤ ·)).getD i 0 ≤
        (durations.insertionSort (· ≤ ·)).getD j 0 := by
    intro i j hij hj
    rw [hget i (by omega), hget j hj]
    exact hsorted.rel_get_of_le (Fin.mk_le_mk.mpr hij)
  have hq : calculateDurationStatistics durations =
      { mean := toDuration (durations.sum / (durations.length : ℚ)),
        q50 := toDuration ((durations.insertionSort (· ≤ ·)).getD
          (durations.length / 2) 0),
        q95 := toDuration ((durations.insertionSort (· ≤ ·)).getD
          (durations.length * 95 / 100) 0),
        q99 := toDuration ((durations.insertionSort (· ≤ ·)).getD
          (durations.length * 99 / 100) 0),
        max := toDuration ((durations.insertionSort (· ≤ ·)).getD
          (durations.length - 1) 0) } := calculateDurationStatistics_eq durations h
  refine ⟨?_, ?_, ?_, ?_, ?_, ?_⟩
  · rw [hget 0 hn]
    exact hperm.subset (List.get_mem _ _ _)
  · intro x hx
    have hx' : x ∈ durations.insertionSort (· ≤ ·) := hperm.symm.subset hx
    obtain ⟨j, hj⟩ := List.mem_iff_get.mp hx'
    rw [hget 0 hn, ← hj]
    exact hsorted.rel_get_of_le (Fin.le_def.mpr (Nat.zero_le _))
  · rw [hq]
    exact toDuration_mono (hmono 0 (durations.length / 2) (by omega) (by omega))
  · rw [hq]
    exact toDuration_mono
      (hmono (durations.length / 2) (durations.length * 95 / 100) (by omega) (by omega))
  · rw [hq]
    exact toDuration_mono
      (hmono (durations.length * 95 / 100) (durations.length * 99 / 100) (by omega)
        (by omega))
  · rw [hq]
    exact toDuration_mono
      (hmono (durations.length * 99 / 100) (durations.length - 1) (by omega) (by omega))

/-- Claim C8, witness: the vector [3, 1, 2] seconds. -/
theorem calculateDurationStatistics_ordered_witness :
    ((c8SampleDurations.insertionSort (· ≤ ·)).getD 0 0) ∈ c8SampleDurations ∧
    (∀ x ∈ c8SampleDurations, (c8SampleDurations.insertionSort (· ≤ ·)).getD 0 0 ≤ x) ∧
    toDuration ((c8SampleDurations.insertionSort (· ≤ ·)).getD 0 0)
        ≤ (calculateDurationStatistics c8SampleDurations).q50 ∧
    (calculateDurationStatistics c8SampleDurations).q50
        ≤ (calculateDurationStatistics c8SampleDurations).q95 ∧
    (calculateDurationStatistics c8SampleDurations).q95
        ≤ (calculateDurationStatistics c8SampleDurations).q99 ∧
    (calculateDurationStatistics c8SampleDurations).q99
        ≤ (calculateDurationStatistics c8SampleDurations).max :=
  calculateDurationStatistics_ordered c8SampleDurations (by simp [c8SampleDurations])

end Blazectl
